import Mathlib

/-!
Verification development for the test-log aggregation engine of the EToH
repository (source file: src/github_tests/analyse_logs.py).

The aggregation operates on the sequence of JSON log entries that survive
parsing (the list named parsed_entries in the source).  A record is
represented by its optional text field (absent or non-string text fields
make the whole classification block a no-op in the source) together with an
opaque field standing for the remaining JSON payload (type, location, ...).

Record texts may contain newline characters (a JSON escape in an input
line decodes to a real newline), so the three regular expressions of the
source are modelled exactly, newlines included.  With dot matching
anything but a newline, backslash-s matching the Python whitespace set,
and the dollar anchor matching at the end of the string or just before a
final trailing newline, the patterns reduce to the following decision
procedures (validated exhaustively against the reference semantics):

* re.search of "%cStarting test suite:%c.*?(\\s*(.*))$" matches at the
  first occurrence of the literal "%cStarting test suite:%c" whose
  remainder s passes this test: let core be s with one trailing newline
  removed; every character from the first newline of core through the
  last newline of core must be whitespace (vacuously true when core has
  no newline).  The stripped group(2) then equals the stripped text after
  the last newline of core; the source substitutes "Unknown Test Suite"
  when group(2) is empty, which happens exactly when that stripped text
  is empty.
* the "Finished test suite:" pattern behaves identically with fallback
  text "Unknown".
* re.search of "%cExpect Test:%c\\s*(.*?)\\s*(Passed|Failed|Error)$"
  matches at the first occurrence of the literal "%cExpect Test:%c" whose
  remainder s passes this test: core (as above) ends with one of the
  three status words (pairwise incompatible as suffixes), and the
  remainder before that word strips to a newline-free text; stripped
  group(1) is that stripped text.

Diagnostics: the source prints many informational lines; the state below
records exactly the messages printed with a "Warning:" head, since those
are the surfaced warnings the specification refers to.  Quote characters
of the original f-strings are elided from the modelled messages; no claim
depends on the precise punctuation.
-/

/-- One parsed log entry: the text field inspected by the classifier and an
opaque representation of the rest of the JSON object. -/
structure LogRecord where
  text : Option String
  meta : String
deriving DecidableEq

/-- The per-suite dictionary built by analyze_log_file, with the key names
of the source dictionary. -/
structure SuiteData where
  status : String
  result_summary : String
  logs : List LogRecord
  individual_test_statuses : List (String × String)
deriving DecidableEq

/-- The test_suites dictionary: an insertion-ordered association list. -/
abbrev SuiteMap := List (String × SuiteData)

/-- The mutable state threaded through the record loop of analyze_log_file,
plus the list of surfaced warning messages. -/
structure AnalyzerState where
  test_suites : SuiteMap
  in_suite : Bool
  current_suite_name : Option String
  warnings : List String
deriving DecidableEq

/-- Does the pattern occur as a prefix of the character list. -/
def matchesAt : List Char → List Char → Bool
  | [], _ => true
  | _ :: _, [] => false
  | p :: ps, c :: cs => p == c && matchesAt ps cs

/-- Characters after the first occurrence of the pattern, if it occurs
anywhere (Python substring search semantics: the empty pattern occurs at
position zero). -/
def afterFirstAux (pat : List Char) : List Char → Option (List Char)
  | [] => if matchesAt pat [] then some [] else none
  | c :: cs =>
    if matchesAt pat (c :: cs) then some ((c :: cs).drop pat.length)
    else afterFirstAux pat cs

/-- Python substring containment (the in operator on strings). -/
def strContains (s pat : String) : Bool := (afterFirstAux pat.data s.data).isSome

/-- The remainder of s after the first occurrence of pat, when pat occurs. -/
def afterFirst (s pat : String) : Option String :=
  (afterFirstAux pat.data s.data).map (fun cs => String.mk cs)

/-- The Python whitespace set: the characters matched by the regex class
backslash-s, which coincides with the set stripped by str.strip. -/
def isPyWS (c : Char) : Bool :=
  let n := c.toNat
  (9 <= n && n <= 13) || (28 <= n && n <= 32) || n == 133 || n == 160 || n == 5760 ||
    (8192 <= n && n <= 8202) || n == 8232 || n == 8233 || n == 8239 || n == 8287 ||
    n == 12288

/-- Strip the Python whitespace set from both ends of a character list. -/
def pyStripChars (l : List Char) : List Char :=
  ((l.dropWhile isPyWS).reverse.dropWhile isPyWS).reverse

/-- Python str.strip on strings. -/
def strTrim (s : String) : String := String.mk (pyStripChars s.data)

/-- The remainder with one trailing newline removed: the dollar anchor of
the source regexes matches at the end of the string or just before a
final trailing newline. -/
def coreOf (s : List Char) : List Char :=
  if s.getLast? == some '\n' then s.dropLast else s

/-- The characters after the last newline (the whole list when none). -/
def afterLastNL (l : List Char) : List Char :=
  (l.reverse.takeWhile (fun ch => !(ch == '\n'))).reverse

/-- The characters up to and including the last newline (empty when none). -/
def uptoLastNL (l : List Char) : List Char :=
  (l.reverse.dropWhile (fun ch => !(ch == '\n'))).reverse

/-- Does the tail pattern dot-star-lazy, group of backslash-s-star and
dot-star, dollar of the start and end regexes match the remainder s: with
core the remainder minus a trailing newline, every character from the
first newline of core through the last newline of core is whitespace. -/
def tailMatches (s : List Char) : Bool :=
  let head := uptoLastNL (coreOf s)
  head.isEmpty || (head.dropWhile (fun ch => !(ch == '\n'))).all isPyWS

/-- The group(2) capture base of a matching remainder: the text after the
last newline of core (stripping it yields stripped group(2)). -/
def tailCapture (s : List Char) : List Char := afterLastNL (coreOf s)

/-- re.search for a pattern of the form literal-then-tail: scan for the
first occurrence of the literal whose remainder satisfies the tail test,
and return that remainder. -/
def reSearchAux (pat : List Char) (ok : List Char → Bool) : List Char → Option (List Char)
  | [] => if matchesAt pat [] && ok [] then some [] else none
  | c :: cs =>
    if matchesAt pat (c :: cs) && ok ((c :: cs).drop pat.length) then
      some ((c :: cs).drop pat.length)
    else reSearchAux pat ok cs

/-- Capture base of the suite-start regex: the text after the last core
newline of the remainder at the first occurrence of the start literal
whose tail matches; none when the regex does not match. -/
def startRem? (t : String) : Option String :=
  (reSearchAux ("%cStarting test suite:%c").data tailMatches t.data).map
    (fun s => String.mk (tailCapture s))

/-- Capture base of the suite-end regex, as for the start regex. -/
def endRem? (t : String) : Option String :=
  (reSearchAux ("%cFinished test suite:%c").data tailMatches t.data).map
    (fun s => String.mk (tailCapture s))

/-- Does s end with w. -/
def endsWithStr (s w : String) : Bool := matchesAt w.data.reverse s.data.reverse

/-- The status word the expect-test regex captures from a remainder core:
the terminal Passed, Failed or Error, tried in the alternation order of
the source pattern (at most one of the three can be a suffix). -/
def statusWordOf (rem : String) : Option String :=
  if endsWithStr rem "Passed" then some "Passed"
  else if endsWithStr rem "Failed" then some "Failed"
  else if endsWithStr rem "Error" then some "Error"
  else none

/-- The (test name, recorded status) pair computation on the remainder
after one occurrence of the expect literal: the core must end with a
status word and the text before the word must strip to something
newline-free (the lazy group cannot cross a newline); Error is mapped to
Failed exactly as the source does. -/
def expectTailInfo (s : List Char) : Option (String × String) :=
  match statusWordOf (String.mk (coreOf s)) with
  | none => none
  | some w =>
    let nm := pyStripChars ((coreOf s).take ((coreOf s).length - w.data.length))
    if nm.any (fun ch => ch == '\n') then none
    else some (String.mk nm, if w == "Passed" then "Passed" else "Failed")

/-- The expect-test classification: first occurrence of the expect
literal whose remainder yields a result. -/
def expectInfo? (t : String) : Option (String × String) :=
  match reSearchAux ("%cExpect Test:%c").data (fun s => (expectTailInfo s).isSome) t.data with
  | none => none
  | some s => expectTailInfo s

/-- suite_name computation of the start branch: stripped group(2) with the
fallback of the source for an empty capture. -/
def suiteNameOfRem (rem : String) : String :=
  if strTrim rem == "" then "Unknown Test Suite" else strTrim rem

/-- end_suite_name_and_result computation of the end branch. -/
def endSummaryOfRem (rem : String) : String :=
  if strTrim rem == "" then "Unknown" else strTrim rem

/-- Python truthiness of the optional current_suite_name. -/
def truthyName : Option String → Bool
  | none => false
  | some s => !(s == "")

/-- Apply f to the value stored under key n (dictionary item mutation). -/
def mapAtKey (m : SuiteMap) (n : String) (f : SuiteData → SuiteData) : SuiteMap :=
  m.map (fun p => if p.1 == n then (p.1, f p.2) else p)

/-- Python membership test n in test_suites. -/
def hasKey (m : SuiteMap) (n : String) : Bool := m.any (fun p => p.1 == n)

/-- Dictionary assignment test_suites[n] = v: replace in place when the key
exists, append otherwise. -/
def updateSlot (m : SuiteMap) (n : String) (v : SuiteData) : SuiteMap :=
  if hasKey m n then m.map (fun p => if p.1 == n then (n, v) else p) else m ++ [(n, v)]

/-- Set the status of the suite stored under n to Incomplete. -/
def setIncomplete (m : SuiteMap) (n : String) : SuiteMap :=
  mapAtKey m n (fun e => { e with status := "Incomplete" })

/-- The dictionary created for a new suite: running status, N/A summary,
a log list holding only the start record, empty individual statuses. -/
def freshSuite (r : LogRecord) : SuiteData :=
  { status := "running", result_summary := "N/A", logs := [r], individual_test_statuses := [] }

/-- individual_test_statuses[k] = v. -/
def setTest (l : List (String × String)) (k v : String) : List (String × String) :=
  if l.any (fun p => p.1 == k) then l.map (fun p => if p.1 == k then (k, v) else p)
  else l ++ [(k, v)]

/-- Final status computation of the matched-end branch: Failed when some
recorded individual status differs from Passed, otherwise Failed when the
trailing summary text contains Failed or Error, otherwise Passed. -/
def endStatus (tests : List (String × String)) (summ : String) : String :=
  if tests.any (fun p => p.2 != "Passed") then "Failed"
  else if strContains summ "Failed" || strContains summ "Error" then "Failed"
  else "Passed"

/-- The overlapping-start warning printed by the source (quotes elided). -/
def overlapWarning (newName oldName : String) : String :=
  "Warning: Found a new test suite start (" ++ newName ++
    ") before the previous one (" ++ oldName ++ ") explicitly ended."

/-- The unterminated-suite warning printed by the source (quotes elided). -/
def unfinishedWarning (name : String) : String :=
  "Warning: Test suite " ++ name ++ " started but did not finish at the end of the log file."

/-- The state produced by the suite-start branch: the previously open suite
(when present in the dictionary) is set Incomplete, a fresh dictionary entry
is assigned under the new name, the new suite becomes the open one, and the
overlapping-start warning is surfaced when a suite was already open. -/
def startBranch (st : AnalyzerState) (r : LogRecord) (rem : String) : AnalyzerState :=
  { test_suites := updateSlot
      (if st.in_suite && truthyName st.current_suite_name &&
          hasKey st.test_suites (st.current_suite_name.getD "") then
        setIncomplete st.test_suites (st.current_suite_name.getD "")
      else st.test_suites)
      (suiteNameOfRem rem) (freshSuite r),
    in_suite := true,
    current_suite_name := some (suiteNameOfRem rem),
    warnings := if st.in_suite then
        st.warnings ++ [overlapWarning (suiteNameOfRem rem) (st.current_suite_name.getD "None")]
      else st.warnings }

/-- The suite-start branch of the record loop. -/
def startApply (st : AnalyzerState) (r : LogRecord) (t : String) : AnalyzerState :=
  match startRem? t with
  | none => st
  | some rem => startBranch st r rem

/-- The finalisation applied to the dictionary entry of the closing suite. -/
def endUpd (rem : String) (e : SuiteData) : SuiteData :=
  { e with status := endStatus e.individual_test_statuses (endSummaryOfRem rem),
           result_summary := endSummaryOfRem rem }

def endBranch (st : AnalyzerState) (rem : String) : AnalyzerState :=
  { test_suites := mapAtKey st.test_suites (st.current_suite_name.getD "") (endUpd rem),
    in_suite := false, current_suite_name := none, warnings := st.warnings }

/-- The suite-end branch of the record loop.  The branch fires only when a
suite is open, the current name is truthy, the current name occurs as a
substring of the whole text and the end regex matches the text (the
source performs no comparison between the current name and any name
appearing after the end marker). -/
def endApply (st : AnalyzerState) (t : String) : AnalyzerState :=
  match endRem? t with
  | none => st
  | some rem =>
    if st.in_suite && truthyName st.current_suite_name &&
        strContains t (st.current_suite_name.getD "") then endBranch st rem
    else st

/-- The mutation recording one individual test result on a dictionary entry. -/
def expectUpd (i : String × String) (e : SuiteData) : SuiteData :=
  { e with individual_test_statuses := setTest e.individual_test_statuses i.1 i.2 }

def expectBranch (st : AnalyzerState) (i : String × String) : AnalyzerState :=
  { test_suites := mapAtKey st.test_suites (st.current_suite_name.getD "") (expectUpd i),
    in_suite := st.in_suite,
    current_suite_name := st.current_suite_name,
    warnings := st.warnings }

/-- The expect-test branch of the record loop. -/
def expectApply (st : AnalyzerState) (t : String) : AnalyzerState :=
  match expectInfo? t with
  | none => st
  | some i =>
    if st.in_suite && truthyName st.current_suite_name then expectBranch st i
    else st

/-- One iteration of the record loop: a record without a string text field
is a complete no-op; otherwise the start, end and expect branches are
checked sequentially, each observing the state left by the previous one. -/
def step (st : AnalyzerState) (r : LogRecord) : AnalyzerState :=
  match r.text with
  | none => st
  | some t => expectApply (endApply (startApply st r t) t) t

/-- The state before the loop. -/
def initState : AnalyzerState :=
  { test_suites := [], in_suite := false, current_suite_name := none, warnings := [] }

/-- The end-of-stream sweep after the loop: an open suite with a truthy name
draws a warning and, when present in the dictionary, is set Incomplete. -/
def finishSweep (st : AnalyzerState) : AnalyzerState :=
  if st.in_suite && truthyName st.current_suite_name then
    { st with
      warnings := st.warnings ++ [unfinishedWarning (st.current_suite_name.getD "")],
      test_suites := if hasKey st.test_suites (st.current_suite_name.getD "") then
          setIncomplete st.test_suites (st.current_suite_name.getD "")
        else st.test_suites }
  else st

/-- Full analyzer state after folding the record loop over the parsed
entries and applying the end-of-stream sweep. -/
def analyzeState (rs : List LogRecord) : AnalyzerState := finishSweep (rs.foldl step initState)

/-- The dictionary analyze_log_file returns, as a function of the parsed
record sequence (a missing or unreadable input file corresponds to the
empty sequence and hence the empty dictionary). -/
def analyze_log_file (rs : List LogRecord) : SuiteMap := (analyzeState rs).test_suites

/-- The per-suite failure test of the main block: status differing from
Passed, or some recorded individual status differing from Passed. -/
def suite_failed (e : SuiteData) : Bool :=
  e.status != "Passed" || e.individual_test_statuses.any (fun p => p.2 != "Passed")

/-- all_suites_passed after the rendering loop of the main block. -/
def all_suites_passed (m : SuiteMap) : Bool := m.all (fun p => !suite_failed p.2)

/-- The process exit code of the main block as a function of the parsed
record sequence: 1 when no suites were found, otherwise 0 exactly when all
suites pass the per-suite check. -/
def main_exit_code (rs : List LogRecord) : Nat :=
  let suites := analyze_log_file rs
  if suites.isEmpty then 1 else if all_suites_passed suites then 0 else 1

/-- Modelled from the spec: the Marker Classifier of the specification
parses a suite-end record as SuiteEnd(name, resultText) whose trailing text
has the shape name, status word, counts; the name is the first
whitespace-delimited token of the stripped capture of the end regex.
No such name extraction exists anywhere in the source (the source only
tests substring containment of the open suite name in the whole text), so
this definition exists solely to state what the specification means by an
end marker naming a suite. -/
def specSuiteEndName (t : String) : Option String :=
  (endRem? t).map (fun rem => String.mk ((strTrim rem).data.takeWhile (fun c => !c.isWhitespace)))

/-- Concrete records used by witnesses and counterexamples. -/
def rStartA : LogRecord := ⟨some "%cStarting test suite:%c A", "log"⟩

def rPlain : LogRecord := ⟨some "hello world", "log"⟩

def rEndA : LogRecord := ⟨some "%cFinished test suite:%c A Passed (1/1)", "log"⟩

def rExpectFail : LogRecord := ⟨some "%cExpect Test:%c t1 Failed", "log"⟩

def rExpectPass : LogRecord := ⟨some "%cExpect Test:%c t1 Passed", "log"⟩

def rStartB : LogRecord := ⟨some "%cStarting test suite:%c B", "log"⟩

def rEndAB : LogRecord := ⟨some "%cFinished test suite:%c AB Passed (2/2)", "log"⟩

def rEndX : LogRecord := ⟨some "%cFinished test suite:%c X Passed (1/1)", "log"⟩

def rDual : LogRecord := ⟨some "%cFinished test suite:%c x %cStarting test suite:%c", "log"⟩

/-- A text matching both the start and the end pattern, in marker order. -/
def tDualW : String :=
  "%cStarting test suite:%c A %cFinished test suite:%c A Passed (1/1)"

def rDualW : LogRecord := ⟨some tDualW, "log"⟩

/-- State after one suite-start record: suite A open and running. -/
def stW6 : AnalyzerState := List.foldl step initState [rStartA]

/-- State after a suite-start record and a failing individual test. -/
def stW2 : AnalyzerState := List.foldl step initState [rStartA, rExpectFail]

/-- A suite dictionary entry whose Passed status is justified: a Passed
status implies no recorded individual status differs from Passed. -/
def GoodSuite (e : SuiteData) : Prop :=
  e.status = "Passed" → e.individual_test_statuses.any (fun p => p.2 != "Passed") = false

/-- The reachability invariant of the record loop. -/
structure InvS (st : AnalyzerState) : Prop where
  good : ∀ p ∈ st.test_suites, GoodSuite p.2
  curName : st.in_suite = true → ∃ c, st.current_suite_name = some c ∧ c ≠ ""
  runningOpen : ∀ p ∈ st.test_suites, p.2.status = "running" →
    st.in_suite = true ∧ st.current_suite_name = some p.1
  openRunning : st.in_suite = true → ∀ c, st.current_suite_name = some c →
    ∀ p ∈ st.test_suites, p.1 = c → p.2.status = "running"
  statusCases : ∀ p ∈ st.test_suites, p.2.status = "running" ∨ p.2.status = "Passed" ∨
    p.2.status = "Failed" ∨ p.2.status = "Incomplete"

theorem mem_mapAtKey {m : SuiteMap} {n : String} {f : SuiteData → SuiteData}
    {p : String × SuiteData} (h : p ∈ mapAtKey m n f) :
    (p ∈ m ∧ p.1 ≠ n) ∨ ∃ e, (n, e) ∈ m ∧ p = (n, f e) := by
  unfold mapAtKey at h
  rcases List.mem_map.mp h with ⟨q, hq, hEq⟩
  by_cases hn : q.1 = n
  · right
    refine ⟨q.2, ?_, ?_⟩
    · rw [← hn]; exact hq
    · rw [← hEq]; simp [beq_iff_eq, hn]
  · left
    have : p = q := by rw [← hEq]; simp [beq_iff_eq, hn]
    subst this
    exact ⟨hq, hn⟩

theorem mem_updateSlot {m : SuiteMap} {n : String} {v : SuiteData}
    {p : String × SuiteData} (h : p ∈ updateSlot m n v) :
    (p ∈ m ∧ p.1 ≠ n) ∨ p = (n, v) := by
  unfold updateSlot at h
  by_cases hk : hasKey m n = true
  · rw [if_pos hk] at h
    rcases List.mem_map.mp h with ⟨q, hq, hEq⟩
    by_cases hn : q.1 = n
    · right; rw [← hEq]; simp [beq_iff_eq, hn]
    · left
      have : p = q := by rw [← hEq]; simp [beq_iff_eq, hn]
      subst this
      exact ⟨hq, hn⟩
  · rw [if_neg hk] at h
    rcases List.mem_append.mp h with h | h
    · left
      refine ⟨h, ?_⟩
      intro hpn
      apply hk
      unfold hasKey
      rw [List.any_eq_true]
      exact ⟨p, h, by simp [beq_iff_eq, hpn]⟩
    · right; simpa using h

theorem lookup_cons_kv (a k : String) (b : SuiteData) (es : SuiteMap) :
    List.lookup a ((k, b) :: es) = cond (a == k) (some b) (List.lookup a es) := by
  cases h : a == k <;> simp [List.lookup, h]

theorem mapAtKey_cons (a : String) (e : SuiteData) (tl : SuiteMap) (n : String)
    (f : SuiteData → SuiteData) :
    mapAtKey ((a, e) :: tl) n f = (if a == n then (a, f e) else (a, e)) :: mapAtKey tl n f := by
  unfold mapAtKey
  rw [List.map_cons]

theorem hasKey_true_iff (m : SuiteMap) (n : String) :
    hasKey m n = true ↔ ∃ p ∈ m, p.1 = n := by
  unfold hasKey
  rw [List.any_eq_true]
  simp only [beq_iff_eq]

theorem hasKey_false_iff (m : SuiteMap) (n : String) :
    hasKey m n = false ↔ ∀ p ∈ m, p.1 ≠ n := by
  unfold hasKey
  rw [List.any_eq_false]
  simp only [beq_iff_eq]

theorem lookup_mapAtKey_self (m : SuiteMap) (n : String) (f : SuiteData → SuiteData) :
    (mapAtKey m n f).lookup n = (m.lookup n).map f := by
  induction m with
  | nil => rfl
  | cons q tl ih =>
    obtain ⟨a, e⟩ := q
    rw [mapAtKey_cons]
    cases h : a == n
    · have hb : (n == a) = false := by
        simp only [beq_eq_false_iff_ne] at h ⊢
        exact fun hc => h hc.symm
      rw [if_neg (by simp [h]), lookup_cons_kv, lookup_cons_kv, hb]
      simpa using ih
    · have ha : a = n := by simpa [beq_iff_eq] using h
      subst ha
      rw [if_pos (by simp [h]), lookup_cons_kv, lookup_cons_kv]
      simp

theorem lookup_mapAtKey_ne (m : SuiteMap) (n : String) (f : SuiteData → SuiteData)
    (k : String) (h : k ≠ n) : (mapAtKey m n f).lookup k = m.lookup k := by
  induction m with
  | nil => rfl
  | cons q tl ih =>
    obtain ⟨a, e⟩ := q
    rw [mapAtKey_cons]
    cases hae : a == n
    · rw [if_neg (by simp [hae]), lookup_cons_kv, lookup_cons_kv]
      cases hk : k == a <;> simp [ih]
    · have ha : a = n := by simpa [beq_iff_eq] using hae
      subst ha
      have hk : (k == a) = false := by simp [beq_eq_false_iff_ne, h]
      rw [if_pos (by simp [hae]), lookup_cons_kv, lookup_cons_kv, hk]
      simpa using ih

theorem updateSlot_eq (m : SuiteMap) (n : String) (v : SuiteData) :
    updateSlot m n v =
      if hasKey m n then mapAtKey m n (fun _ => v) else m ++ [(n, v)] := by
  unfold updateSlot mapAtKey
  by_cases hk : hasKey m n = true
  · rw [if_pos hk, if_pos hk]
    apply List.map_congr_left
    intro p _
    by_cases hp : p.1 = n
    · simp [beq_iff_eq, hp]
    · simp [beq_iff_eq, hp]
  · rw [if_neg hk, if_neg hk]

theorem lookup_isSome_of_hasKey {m : SuiteMap} {n : String} (h : hasKey m n = true) :
    ∃ e, m.lookup n = some e := by
  induction m with
  | nil => simp [hasKey] at h
  | cons q tl ih =>
    obtain ⟨a, b⟩ := q
    rw [lookup_cons_kv]
    cases hk : n == a
    · have htl : hasKey tl n = true := by
        rcases (hasKey_true_iff _ _).mp h with ⟨p, hp, hpn⟩
        rcases List.mem_cons.mp hp with rfl | hp'
        · simp only at hpn
          rw [hpn] at hk
          simp at hk
        · exact (hasKey_true_iff _ _).mpr ⟨p, hp', hpn⟩
      rcases ih htl with ⟨e, he⟩
      exact ⟨e, by simpa using he⟩
    · exact ⟨b, by simp⟩

theorem lookup_none_of_hasKey_false {m : SuiteMap} {n : String} (h : hasKey m n = false) :
    m.lookup n = none := by
  induction m with
  | nil => rfl
  | cons q tl ih =>
    obtain ⟨a, b⟩ := q
    have hall := (hasKey_false_iff _ _).mp h
    have ha : a ≠ n := hall (a, b) (by simp)
    have hk : (n == a) = false := by
      simp only [beq_eq_false_iff_ne]
      exact fun hc => ha hc.symm
    rw [lookup_cons_kv, hk]
    have htl : hasKey tl n = false :=
      (hasKey_false_iff _ _).mpr (fun p hp => hall p (by simp [hp]))
    simpa using ih htl

theorem lookup_append_of_none {m l2 : SuiteMap} {k : String} (h : m.lookup k = none) :
    (m ++ l2).lookup k = l2.lookup k := by
  induction m with
  | nil => rfl
  | cons q tl ih =>
    obtain ⟨a, b⟩ := q
    rw [lookup_cons_kv] at h
    cases hk : k == a
    · rw [hk] at h
      simp only [cond_false] at h
      rw [List.cons_append, lookup_cons_kv, hk]
      simpa using ih h
    · rw [hk] at h
      simp at h

theorem lookup_append_of_some {m l2 : SuiteMap} {k : String} {b : SuiteData}
    (h : m.lookup k = some b) : (m ++ l2).lookup k = some b := by
  induction m with
  | nil => simp [List.lookup] at h
  | cons q tl ih =>
    obtain ⟨a, c⟩ := q
    rw [lookup_cons_kv] at h
    rw [List.cons_append, lookup_cons_kv]
    cases hk : k == a
    · rw [hk] at h
      simp only [cond_false] at h
      simpa using ih h
    · rw [hk] at h
      simpa using h

theorem lookup_updateSlot_self (m : SuiteMap) (n : String) (v : SuiteData) :
    (updateSlot m n v).lookup n = some v := by
  rw [updateSlot_eq]
  by_cases hk : hasKey m n = true
  · rw [if_pos hk, lookup_mapAtKey_self]
    rcases lookup_isSome_of_hasKey hk with ⟨e, he⟩
    rw [he]
    rfl
  · rw [if_neg hk]
    rw [lookup_append_of_none (lookup_none_of_hasKey_false (by simpa using hk))]
    rw [lookup_cons_kv]
    simp

theorem lookup_updateSlot_ne (m : SuiteMap) (n : String) (v : SuiteData)
    (k : String) (h : k ≠ n) : (updateSlot m n v).lookup k = m.lookup k := by
  rw [updateSlot_eq]
  by_cases hk : hasKey m n = true
  · rw [if_pos hk, lookup_mapAtKey_ne _ _ _ _ h]
  · rw [if_neg hk]
    cases hm : m.lookup k with
    | some b => exact lookup_append_of_some hm
    | none =>
      rw [lookup_append_of_none hm, lookup_cons_kv]
      have hb : (k == n) = false := by simp [beq_eq_false_iff_ne, h]
      rw [hb]
      simp [List.lookup, hm]

theorem suiteNameOfRem_ne (rem : String) : suiteNameOfRem rem ≠ "" := by
  unfold suiteNameOfRem
  cases h : strTrim rem == ""
  · rw [if_neg (by simp [h])]
    simpa [beq_eq_false_iff_ne] using h
  · rw [if_pos (by simp [h])]
    decide

theorem endStatus_cases (ts : List (String × String)) (s : String) :
    endStatus ts s = "Passed" ∨ endStatus ts s = "Failed" := by
  unfold endStatus
  split
  · right; rfl
  · split
    · right; rfl
    · left; rfl

theorem endStatus_passed_no_fail {ts : List (String × String)} {s : String}
    (h : endStatus ts s = "Passed") : ts.any (fun p => p.2 != "Passed") = false := by
  unfold endStatus at h
  cases ha : ts.any (fun p => p.2 != "Passed")
  · rfl
  · rw [if_pos (by simp [ha])] at h
    exact absurd h (by decide)

theorem endStatus_ne_running (ts : List (String × String)) (s : String) :
    endStatus ts s ≠ "running" := by
  rcases endStatus_cases ts s with h | h <;> rw [h] <;> decide

theorem inv_startState (r : LogRecord) (name : String)
    (hnm : name ≠ "") (m1 : SuiteMap) (w : List String)
    (hgood : ∀ p ∈ m1, GoodSuite p.2)
    (hnorun : ∀ p ∈ m1, p.2.status ≠ "running")
    (hcases : ∀ p ∈ m1, p.2.status = "running" ∨ p.2.status = "Passed" ∨
      p.2.status = "Failed" ∨ p.2.status = "Incomplete") :
    InvS { test_suites := updateSlot m1 name (freshSuite r), in_suite := true,
           current_suite_name := some name, warnings := w } := by
  constructor
  · intro p hp
    rcases mem_updateSlot hp with ⟨hm, _⟩ | rfl
    · exact hgood p hm
    · intro hps
      exact absurd hps (by simp [freshSuite])
  · intro _
    exact ⟨name, rfl, hnm⟩
  · intro p hp hrun
    rcases mem_updateSlot hp with ⟨hm, _⟩ | rfl
    · exact absurd hrun (hnorun p hm)
    · exact ⟨rfl, rfl⟩
  · intro _ c hc p hp hpc
    have hnc : name = c := Option.some.inj hc
    rcases mem_updateSlot hp with ⟨_, hne⟩ | rfl
    · exact absurd (hpc.trans hnc.symm) hne
    · rfl
  · intro p hp
    rcases mem_updateSlot hp with ⟨hm, _⟩ | rfl
    · exact hcases p hm
    · left; rfl

theorem inv_startBranch (st : AnalyzerState) (r : LogRecord) (rem : String) (h : InvS st) :
    InvS (startBranch st r rem) := by
  unfold startBranch
  by_cases g : (st.in_suite && truthyName st.current_suite_name &&
      hasKey st.test_suites (st.current_suite_name.getD "")) = true
  · rw [if_pos g]
    refine inv_startState r _ (suiteNameOfRem_ne rem) _ _ ?_ ?_ ?_
    · intro p hp
      unfold setIncomplete at hp
      rcases mem_mapAtKey hp with ⟨hm, _⟩ | ⟨e, _, rfl⟩
      · exact h.good p hm
      · intro hps
        exact absurd hps (by simp)
    · intro p hp
      unfold setIncomplete at hp
      rcases mem_mapAtKey hp with ⟨hm, hne⟩ | ⟨e, _, rfl⟩
      · intro hrun
        rcases h.runningOpen p hm hrun with ⟨_, hcur⟩
        apply hne
        rw [hcur]
        rfl
      · simp
    · intro p hp
      unfold setIncomplete at hp
      rcases mem_mapAtKey hp with ⟨hm, _⟩ | ⟨e, _, rfl⟩
      · exact h.statusCases p hm
      · right; right; right; rfl
  · rw [if_neg g]
    refine inv_startState r _ (suiteNameOfRem_ne rem) _ _ h.good ?_ h.statusCases
    intro p hp hrun
    rcases h.runningOpen p hp hrun with ⟨hin, hcur⟩
    apply g
    rw [hin, hcur]
    obtain ⟨c, hc, hcne⟩ := h.curName hin
    rw [hcur] at hc
    have hcp : p.1 ≠ "" := by
      intro hemp
      apply hcne
      rw [← (Option.some.inj hc)]
      exact hemp
    have h2 : hasKey st.test_suites p.1 = true :=
      (hasKey_true_iff _ _).mpr ⟨p, hp, rfl⟩
    simp [truthyName, hcp, h2]

theorem inv_endBranch (st : AnalyzerState) (rem : String) (h : InvS st)
    (hin : st.in_suite = true) : InvS (endBranch st rem) := by
  obtain ⟨c, hc, hcne⟩ := h.curName hin
  have hc0 : st.current_suite_name.getD "" = c := by rw [hc]; rfl
  unfold endBranch
  constructor
  · intro p hp
    have hp' : p ∈ mapAtKey st.test_suites (st.current_suite_name.getD "") (endUpd rem) := hp
    rcases mem_mapAtKey hp' with ⟨hm, _⟩ | ⟨e, _, rfl⟩
    · exact h.good p hm
    · intro hps
      have hps' : endStatus e.individual_test_statuses (endSummaryOfRem rem) = "Passed" := hps
      have := endStatus_passed_no_fail hps'
      show (endUpd rem e).individual_test_statuses.any (fun p => p.2 != "Passed") = false
      unfold endUpd
      simpa using this
  · intro hfalse
    exact absurd hfalse (by simp)
  · intro p hp hrun
    have hp' : p ∈ mapAtKey st.test_suites (st.current_suite_name.getD "") (endUpd rem) := hp
    rcases mem_mapAtKey hp' with ⟨hm, hne⟩ | ⟨e, _, rfl⟩
    · rcases h.runningOpen p hm hrun with ⟨_, hcur⟩
      rw [hc] at hcur
      rw [hc0] at hne
      exact absurd (Option.some.inj hcur).symm hne
    · exact absurd hrun (endStatus_ne_running _ _)
  · intro hfalse
    exact absurd hfalse (by simp)
  · intro p hp
    have hp' : p ∈ mapAtKey st.test_suites (st.current_suite_name.getD "") (endUpd rem) := hp
    rcases mem_mapAtKey hp' with ⟨hm, _⟩ | ⟨e, _, rfl⟩
    · exact h.statusCases p hm
    · rcases endStatus_cases e.individual_test_statuses (endSummaryOfRem rem) with h' | h'
      · right; left; exact h'
      · right; right; left; exact h'

theorem inv_expectBranch (st : AnalyzerState) (i : String × String) (h : InvS st)
    (hin : st.in_suite = true) : InvS (expectBranch st i) := by
  obtain ⟨c, hc, hcne⟩ := h.curName hin
  have hc0 : st.current_suite_name.getD "" = c := by rw [hc]; rfl
  unfold expectBranch
  constructor
  · intro p hp
    have hp' : p ∈ mapAtKey st.test_suites (st.current_suite_name.getD "") (expectUpd i) := hp
    rw [hc0] at hp'
    rcases mem_mapAtKey hp' with ⟨hm, _⟩ | ⟨e, hm, rfl⟩
    · exact h.good p hm
    · intro hps
      have hps' : e.status = "Passed" := hps
      have := h.openRunning hin c hc (c, e) hm rfl
      simp only at this
      rw [hps'] at this
      exact absurd this (by decide)
  · intro _
    exact ⟨c, hc, hcne⟩
  · intro p hp hrun
    have hp' : p ∈ mapAtKey st.test_suites (st.current_suite_name.getD "") (expectUpd i) := hp
    rw [hc0] at hp'
    rcases mem_mapAtKey hp' with ⟨hm, _⟩ | ⟨e, hm, rfl⟩
    · exact h.runningOpen p hm hrun
    · exact ⟨hin, hc⟩
  · intro _ c' hc' p hp hpc
    have hcc : c' = c := by
      have hc'' : st.current_suite_name = some c' := hc'
      rw [hc] at hc''
      exact (Option.some.inj hc'').symm
    subst hcc
    have hp' : p ∈ mapAtKey st.test_suites (st.current_suite_name.getD "") (expectUpd i) := hp
    rw [hc0] at hp'
    rcases mem_mapAtKey hp' with ⟨hm, hne⟩ | ⟨e, hm, rfl⟩
    · exact absurd hpc hne
    · show (expectUpd i e).status = "running"
      unfold expectUpd
      exact h.openRunning hin c' hc (c', e) hm rfl
  · intro p hp
    have hp' : p ∈ mapAtKey st.test_suites (st.current_suite_name.getD "") (expectUpd i) := hp
    rw [hc0] at hp'
    rcases mem_mapAtKey hp' with ⟨hm, _⟩ | ⟨e, hm, rfl⟩
    · exact h.statusCases p hm
    · exact h.statusCases (c, e) hm

theorem inv_startApply (st : AnalyzerState) (r : LogRecord) (t : String) (h : InvS st) :
    InvS (startApply st r t) := by
  unfold startApply
  cases hs : startRem? t with
  | none => exact h
  | some rem => exact inv_startBranch st r rem h

theorem inv_endApply (st : AnalyzerState) (t : String) (h : InvS st) :
    InvS (endApply st t) := by
  unfold endApply
  cases he : endRem? t with
  | none => exact h
  | some rem =>
    show InvS (if st.in_suite && truthyName st.current_suite_name &&
        strContains t (st.current_suite_name.getD "") then endBranch st rem else st)
    by_cases g : (st.in_suite && truthyName st.current_suite_name &&
        strContains t (st.current_suite_name.getD "")) = true
    · have hin : st.in_suite = true := by
        simp only [Bool.and_eq_true] at g
        exact g.1.1
      rw [if_pos g]
      exact inv_endBranch st rem h hin
    · rw [if_neg g]
      exact h

theorem inv_expectApply (st : AnalyzerState) (t : String) (h : InvS st) :
    InvS (expectApply st t) := by
  unfold expectApply
  cases hi : expectInfo? t with
  | none => exact h
  | some i =>
    show InvS (if st.in_suite && truthyName st.current_suite_name then expectBranch st i else st)
    by_cases g : (st.in_suite && truthyName st.current_suite_name) = true
    · have hin : st.in_suite = true := by
        simp only [Bool.and_eq_true] at g
        exact g.1
      rw [if_pos g]
      exact inv_expectBranch st i h hin
    · rw [if_neg g]
      exact h

theorem inv_step (st : AnalyzerState) (r : LogRecord) (h : InvS st) : InvS (step st r) := by
  unfold step
  cases r.text with
  | none => exact h
  | some t => exact inv_expectApply _ _ (inv_endApply _ _ (inv_startApply _ _ _ h))

theorem inv_init : InvS initState := by
  constructor <;> simp [initState]

theorem inv_foldl (rs : List LogRecord) (st : AnalyzerState) (h : InvS st) :
    InvS (rs.foldl step st) := by
  induction rs generalizing st with
  | nil => exact h
  | cons r tl ih => exact ih _ (inv_step _ _ h)

theorem finishSweep_suites (st : AnalyzerState) :
    (finishSweep st).test_suites =
      if st.in_suite && truthyName st.current_suite_name then
        (if hasKey st.test_suites (st.current_suite_name.getD "") then
          setIncomplete st.test_suites (st.current_suite_name.getD "")
        else st.test_suites)
      else st.test_suites := by
  unfold finishSweep
  by_cases g : (st.in_suite && truthyName st.current_suite_name) = true
  · rw [if_pos g, if_pos g]
  · rw [if_neg g, if_neg g]

theorem analyze_entry_props (rs : List LogRecord) (p : String × SuiteData)
    (hp : p ∈ analyze_log_file rs) :
    GoodSuite p.2 ∧ (p.2.status = "Passed" ∨ p.2.status = "Failed" ∨
      p.2.status = "Incomplete") := by
  have hInv := inv_foldl rs initState inv_init
  unfold analyze_log_file analyzeState at hp
  rw [finishSweep_suites] at hp
  set st := rs.foldl step initState with hst
  by_cases g : (st.in_suite && truthyName st.current_suite_name) = true
  · rw [if_pos g] at hp
    have hin : st.in_suite = true := by
      simp only [Bool.and_eq_true] at g
      exact g.1
    obtain ⟨c, hc, hcne⟩ := hInv.curName hin
    have hc0 : st.current_suite_name.getD "" = c := by rw [hc]; rfl
    by_cases hk : hasKey st.test_suites (st.current_suite_name.getD "") = true
    · rw [if_pos hk] at hp
      unfold setIncomplete at hp
      rcases mem_mapAtKey hp with ⟨hm, hne⟩ | ⟨e, _, rfl⟩
      · refine ⟨hInv.good p hm, ?_⟩
        rcases hInv.statusCases p hm with hr | h' | h' | h'
        · rcases hInv.runningOpen p hm hr with ⟨_, hcur⟩
          rw [hc] at hcur
          rw [hc0] at hne
          exact absurd (Option.some.inj hcur).symm hne
        · exact Or.inl h'
        · exact Or.inr (Or.inl h')
        · exact Or.inr (Or.inr h')
      · constructor
        · intro hps
          exact absurd hps (by simp)
        · right; right; rfl
    · rw [if_neg hk] at hp
      refine ⟨hInv.good p hp, ?_⟩
      rcases hInv.statusCases p hp with hr | h' | h' | h'
      · exfalso
        rcases hInv.runningOpen p hp hr with ⟨_, hcur⟩
        apply hk
        apply (hasKey_true_iff _ _).mpr
        refine ⟨p, hp, ?_⟩
        rw [hc0]
        rw [hc] at hcur
        exact (Option.some.inj hcur).symm
      · exact Or.inl h'
      · exact Or.inr (Or.inl h')
      · exact Or.inr (Or.inr h')
  · rw [if_neg g] at hp
    refine ⟨hInv.good p hp, ?_⟩
    rcases hInv.statusCases p hp with hr | h' | h' | h'
    · exfalso
      rcases hInv.runningOpen p hp hr with ⟨hin, hcur⟩
      apply g
      rw [hin, hcur]
      obtain ⟨c, hc, hcne⟩ := hInv.curName hin
      rw [hcur] at hc
      have hcp : p.1 ≠ "" := by
        intro hemp
        apply hcne
        rw [← (Option.some.inj hc)]
        exact hemp
      simp [truthyName, hcp]
    · exact Or.inl h'
    · exact Or.inr (Or.inl h')
    · exact Or.inr (Or.inr h')

theorem step_some (st : AnalyzerState) (r : LogRecord) (t : String) (ht : r.text = some t) :
    step st r = expectApply (endApply (startApply st r t) t) t := by
  unfold step
  rw [ht]

theorem startApply_none (st : AnalyzerState) (r : LogRecord) (t : String)
    (hs : startRem? t = none) : startApply st r t = st := by
  unfold startApply
  rw [hs]

theorem startApply_some (st : AnalyzerState) (r : LogRecord) (t rem : String)
    (hs : startRem? t = some rem) : startApply st r t = startBranch st r rem := by
  unfold startApply
  rw [hs]

theorem endApply_none (st : AnalyzerState) (t : String) (he : endRem? t = none) :
    endApply st t = st := by
  unfold endApply
  rw [he]

theorem endApply_fire (st : AnalyzerState) (t rem : String) (he : endRem? t = some rem)
    (g : (st.in_suite && truthyName st.current_suite_name &&
      strContains t (st.current_suite_name.getD "")) = true) :
    endApply st t = endBranch st rem := by
  unfold endApply
  rw [he]
  show (if _ then endBranch st rem else st) = endBranch st rem
  rw [if_pos g]

theorem endApply_skip (st : AnalyzerState) (t rem : String) (he : endRem? t = some rem)
    (g : (st.in_suite && truthyName st.current_suite_name &&
      strContains t (st.current_suite_name.getD "")) = false) :
    endApply st t = st := by
  unfold endApply
  rw [he]
  show (if _ then endBranch st rem else st) = st
  rw [if_neg (by simp [g])]

theorem expectApply_none (st : AnalyzerState) (t : String) (hi : expectInfo? t = none) :
    expectApply st t = st := by
  unfold expectApply
  rw [hi]

theorem expectApply_endBranch (st : AnalyzerState) (rem t : String) :
    expectApply (endBranch st rem) t = endBranch st rem := by
  unfold expectApply
  cases hi : expectInfo? t with
  | none => rfl
  | some i =>
    show (if (endBranch st rem).in_suite && truthyName (endBranch st rem).current_suite_name
      then expectBranch (endBranch st rem) i else endBranch st rem) = endBranch st rem
    rw [if_neg (by simp [endBranch])]

theorem map_fst_mapAtKey (m : SuiteMap) (n : String) (f : SuiteData → SuiteData) :
    (mapAtKey m n f).map Prod.fst = m.map Prod.fst := by
  induction m with
  | nil => rfl
  | cons q tl ih =>
    obtain ⟨a, e⟩ := q
    rw [mapAtKey_cons]
    cases h : a == n
    · rw [if_neg (by simp [h])]
      simp [ih]
    · rw [if_pos (by simp [h])]
      simp [ih]

theorem map_fst_endApply (st : AnalyzerState) (t : String) :
    (endApply st t).test_suites.map Prod.fst = st.test_suites.map Prod.fst := by
  unfold endApply
  cases he : endRem? t with
  | none => rfl
  | some rem =>
    show ((if _ then endBranch st rem else st).test_suites.map Prod.fst) = _
    by_cases g : (st.in_suite && truthyName st.current_suite_name &&
        strContains t (st.current_suite_name.getD "")) = true
    · rw [if_pos g]
      exact map_fst_mapAtKey _ _ _
    · rw [if_neg g]

theorem map_fst_expectApply (st : AnalyzerState) (t : String) :
    (expectApply st t).test_suites.map Prod.fst = st.test_suites.map Prod.fst := by
  unfold expectApply
  cases hi : expectInfo? t with
  | none => rfl
  | some i =>
    show ((if _ then expectBranch st i else st).test_suites.map Prod.fst) = _
    by_cases g : (st.in_suite && truthyName st.current_suite_name) = true
    · rw [if_pos g]
      exact map_fst_mapAtKey _ _ _
    · rw [if_neg g]

theorem any_ne_eq_any_failed (ts : List (String × String))
    (hv : ∀ q ∈ ts, q.2 = "Passed" ∨ q.2 = "Failed") :
    (ts.any fun q => q.2 != "Passed") = (ts.any fun q => q.2 == "Failed") := by
  induction ts with
  | nil => rfl
  | cons q tl ih =>
    have hq := hv q (by simp)
    have htl : ∀ q' ∈ tl, q'.2 = "Passed" ∨ q'.2 = "Failed" :=
      fun q' hq' => hv q' (by simp [hq'])
    simp only [List.any_cons, ih htl]
    rcases hq with h | h <;> rw [h]
    · rw [show (("Passed" : String) != "Passed") = false from by decide,
        show (("Passed" : String) == "Failed") = false from by decide]
    · rw [show (("Failed" : String) != "Passed") = true from by decide,
        show (("Failed" : String) == "Failed") = true from by decide]

theorem endStatus_eq_claim (ts : List (String × String)) (s : String)
    (hv : ∀ q ∈ ts, q.2 = "Passed" ∨ q.2 = "Failed") :
    endStatus ts s = if strContains s "Failed" || strContains s "Error" ||
        ts.any (fun q => q.2 == "Failed") then "Failed" else "Passed" := by
  unfold endStatus
  rw [any_ne_eq_any_failed ts hv]
  cases ha : (ts.any fun q => q.2 == "Failed") <;>
    cases hw : strContains s "Failed" || strContains s "Error" <;>
      simp [ha, hw]

theorem mem_of_getLast?_eq {l : List Char} {a : Char} (h : l.getLast? = some a) : a ∈ l := by
  induction l with
  | nil => simp at h
  | cons c cs ih =>
    cases cs with
    | nil =>
      simp only [List.getLast?_singleton, Option.some.injEq] at h
      simp [h]
    | cons d ds =>
      rw [List.getLast?_cons_cons] at h
      exact List.mem_cons_of_mem _ (ih h)

theorem reSearch_isSome_sub (pat : List Char) (ok : List Char → Bool) :
    ∀ s : List Char, (reSearchAux pat ok s).isSome = true →
      (afterFirstAux pat s).isSome = true := by
  intro s
  induction s with
  | nil =>
    intro h
    unfold reSearchAux at h
    unfold afterFirstAux
    cases hm : matchesAt pat []
    · rw [hm] at h
      simp at h
    · simp [hm]
  | cons c cs ih =>
    intro h
    unfold reSearchAux at h
    unfold afterFirstAux
    cases hm : matchesAt pat (c :: cs)
    · rw [hm] at h
      simp only [Bool.false_and] at h
      simp only [hm, Bool.false_eq_true, if_false] at h ⊢
      exact ih (by simpa using h)
    · simp [hm]

theorem tailMatches_of_no_newline {s : List Char}
    (h : s.any (fun ch => ch == '\n') = false) : tailMatches s = true := by
  have hall : ∀ x ∈ s, (x == '\n') = false := by
    rw [List.any_eq_false] at h
    intro x hx
    cases hxx : x == '\n'
    · rfl
    · exact absurd hxx (h x hx)
  have hcore : coreOf s = s := by
    unfold coreOf
    cases hl : s.getLast? with
    | none => simp
    | some c =>
      have hc := hall c (mem_of_getLast?_eq hl)
      rw [if_neg (by simp [hc])]
  unfold tailMatches uptoLastNL
  rw [hcore]
  have hdrop : s.reverse.dropWhile (fun ch => !(ch == '\n')) = [] := by
    rw [List.dropWhile_eq_nil_iff]
    intro x hx
    rw [hall x (List.mem_reverse.mp hx)]
    rfl
  rw [hdrop]
  rfl

theorem reSearch_eq_afterFirst_of_no_newline (pat : List Char) :
    ∀ s : List Char, s.any (fun ch => ch == '\n') = false →
      (reSearchAux pat tailMatches s).isSome = (afterFirstAux pat s).isSome := by
  intro s
  induction s with
  | nil =>
    intro _
    unfold reSearchAux afterFirstAux
    cases hm : matchesAt pat [] <;>
      simp [hm, tailMatches_of_no_newline (show (([] : List Char).any
        (fun ch => ch == '\n')) = false from rfl)]
  | cons c cs ih =>
    intro h
    have hcs : cs.any (fun ch => ch == '\n') = false := by
      rw [List.any_eq_false] at h ⊢
      intro x hx
      exact h x (List.mem_cons_of_mem _ hx)
    unfold reSearchAux afterFirstAux
    cases hm : matchesAt pat (c :: cs)
    · simp [hm, ih hcs]
    · have hdrop : ((c :: cs).drop pat.length).any (fun ch => ch == '\n') = false := by
        rw [List.any_eq_false] at h ⊢
        intro x hx
        exact h x (List.drop_subset _ _ hx)
      simp [hm, tailMatches_of_no_newline hdrop]

/-- Evaluation of the classifiers on newline-carrying texts, mirroring
the reference regex semantics: a whitespace bridge lets the capture jump
to the final line; two newline-separated non-whitespace segments defeat
the pattern even though the literal occurs; the expect pattern accepts a
trailing newline after the status word but its name group cannot cross a
newline. -/
theorem classifier_newline_cases :
    endRem? "%cFinished test suite:%c A Failed\nok" = some "ok" ∧
    endRem? "%cFinished test suite:%c A\nB\nC" = none ∧
    startRem? "x%cStarting test suite:%cA\nB\nC" = none ∧
    startRem? "%cStarting test suite:%c A\nB" = some "B" ∧
    (expectInfo? "%cExpect Test:%c t Passed\n").isSome = true ∧
    expectInfo? "%cExpect Test:%c a\nb Passed" = none ∧
    expectInfo? "%cExpect Test:%c t Passed" = some ("t", "Passed") := by decide

/-- Claim C7: the process exit code is 0 exactly when the final suite
mapping is non-empty and every suite in it has status Passed; in every
other case (no parsed records, no suite markers, or some suite not Passed)
the exit code is 1.  A missing input file yields the empty record sequence
and hence the empty mapping. -/
theorem c7_exit_zero_iff_all_passed (rs : List LogRecord) :
    main_exit_code rs = 0 ↔
      (analyze_log_file rs ≠ [] ∧ ∀ p ∈ analyze_log_file rs, p.2.status = "Passed") := by
  unfold main_exit_code
  by_cases hme : (analyze_log_file rs).isEmpty = true
  · rw [if_pos hme]
    rw [List.isEmpty_iff] at hme
    constructor
    · intro h0
      exact absurd h0 (by decide)
    · rintro ⟨hne, _⟩
      exact absurd hme hne
  · rw [if_neg hme]
    rw [List.isEmpty_iff] at hme
    by_cases hap : all_suites_passed (analyze_log_file rs) = true
    · rw [if_pos hap]
      constructor
      · intro _
        refine ⟨hme, ?_⟩
        intro p hp
        unfold all_suites_passed at hap
        rw [List.all_eq_true] at hap
        have hnp := hap p hp
        rw [Bool.not_eq_true'] at hnp
        unfold suite_failed at hnp
        rcases Bool.or_eq_false_iff.mp hnp with ⟨h1, _⟩
        have : (p.2.status == "Passed") = true := by
          cases hb : p.2.status == "Passed"
          · rw [bne, hb] at h1
            exact absurd h1 (by decide)
          · rfl
        simpa [beq_iff_eq] using this
      · intro _
        rfl
    · rw [if_neg hap]
      constructor
      · intro h0
        exact absurd h0 (by decide)
      · rintro ⟨_, hall⟩
        exfalso
        apply hap
        unfold all_suites_passed
        rw [List.all_eq_true]
        intro p hp
        have hgood := (analyze_entry_props rs p hp).1
        have hst := hall p hp
        have hnofail := hgood hst
        unfold suite_failed
        rw [hst, hnofail]
        decide

/-- Claim C7 witness: a clean run with one passing suite exits with 0. -/
theorem c7_witness : main_exit_code [rStartA, rExpectPass, rEndA] = 0 :=
  (c7_exit_zero_iff_all_passed [rStartA, rExpectPass, rEndA]).mpr ⟨by decide, by decide⟩

/-- Claim C9: every suite in the mapping returned by the aggregator has a
final status among Passed, Failed and Incomplete; the transient running
status never appears in the returned result. -/
theorem c9_returned_status_final (rs : List LogRecord) (p : String × SuiteData)
    (hp : p ∈ analyze_log_file rs) :
    p.2.status = "Passed" ∨ p.2.status = "Failed" ∨ p.2.status = "Incomplete" :=
  (analyze_entry_props rs p hp).2

/-- Claim C9 witness: an unterminated suite is returned as Incomplete. -/
theorem c9_witness :
    ("A", SuiteData.mk "Incomplete" "N/A" [rStartA] []) ∈ analyze_log_file [rStartA] ∧
    (("A", SuiteData.mk "Incomplete" "N/A" [rStartA] []).2.status = "Passed" ∨
      ("A", SuiteData.mk "Incomplete" "N/A" [rStartA] []).2.status = "Failed" ∨
      ("A", SuiteData.mk "Incomplete" "N/A" [rStartA] []).2.status = "Incomplete") :=
  ⟨by decide, c9_returned_status_final [rStartA] _ (by decide)⟩

/-- Claim C2: at a matched suite-end (open suite c, end regex matching
the text, text containing c, and not classified as a suite-start), the final
status of c is Failed exactly when the trailing summary text contains
Failed or Error or some recorded individual-test status is Failed, and
Passed otherwise; in particular a suite whose end text reports success but
which contains a Failed individual test is finalized as Failed. -/
theorem c2_matched_end_status (st : AnalyzerState) (r : LogRecord) (t c rem : String)
    (e : SuiteData)
    (ht : r.text = some t) (hs : startRem? t = none) (he : endRem? t = some rem)
    (hin : st.in_suite = true) (hc : st.current_suite_name = some c) (hcne : c ≠ "")
    (hcon : strContains t c = true)
    (hl : st.test_suites.lookup c = some e)
    (hvals : ∀ q ∈ e.individual_test_statuses, q.2 = "Passed" ∨ q.2 = "Failed") :
    (step st r).test_suites.lookup c = some
      { e with
        result_summary := endSummaryOfRem rem,
        status := if strContains (endSummaryOfRem rem) "Failed" ||
            strContains (endSummaryOfRem rem) "Error" ||
            e.individual_test_statuses.any (fun q => q.2 == "Failed")
          then "Failed" else "Passed" } := by
  have hc0 : st.current_suite_name.getD "" = c := by rw [hc]; rfl
  rw [step_some st r t ht, startApply_none st r t hs]
  have g : (st.in_suite && truthyName st.current_suite_name &&
      strContains t (st.current_suite_name.getD "")) = true := by
    rw [hin, hc]
    simp [truthyName, hcne, hcon]
  rw [endApply_fire st t rem he g, expectApply_endBranch st rem t]
  show (mapAtKey st.test_suites (st.current_suite_name.getD "") (endUpd rem)).lookup c = _
  rw [hc0, lookup_mapAtKey_self, hl]
  show some (endUpd rem e) = _
  unfold endUpd
  rw [endStatus_eq_claim e.individual_test_statuses (endSummaryOfRem rem) hvals]

/-- Claim C2 witness: suite A, one Failed individual test, end text saying
Passed; the suite is still finalized Failed (child-failure dominance). -/
theorem c2_witness :
    (step stW2 rEndA).test_suites.lookup "A" =
      some ⟨"Failed", "A Passed (1/1)", [rStartA], [("t1", "Failed")]⟩ :=
  c2_matched_end_status stW2 rEndA "%cFinished test suite:%c A Passed (1/1)" "A"
    " A Passed (1/1)" ⟨"running", "N/A", [rStartA], [("t1", "Failed")]⟩
    rfl (by decide) (by decide) (by decide) (by decide) (by decide) (by decide)
    (by decide) (by decide)

/-- Claim C6: a suite-start record (matching neither the end nor the
expect pattern) arriving while suite c is open finalizes c as Incomplete
when the new name differs from c, creates a fresh entry under the new name
(overwriting any previous map slot with that name, never reusing the old
entry), and leaves the new suite as the single open one with the start
record as its only log entry. -/
theorem c6_overlapping_start (st : AnalyzerState) (r : LogRecord) (t rem c : String)
    (e : SuiteData)
    (ht : r.text = some t) (hs : startRem? t = some rem) (he : endRem? t = none)
    (hexp : expectInfo? t = none)
    (hin : st.in_suite = true) (hc : st.current_suite_name = some c) (hcne : c ≠ "")
    (hl : st.test_suites.lookup c = some e) :
    (step st r).in_suite = true ∧
    (step st r).current_suite_name = some (suiteNameOfRem rem) ∧
    (step st r).test_suites.lookup (suiteNameOfRem rem) = some (freshSuite r) ∧
    (suiteNameOfRem rem ≠ c →
      (step st r).test_suites.lookup c = some { e with status := "Incomplete" }) := by
  have hc0 : st.current_suite_name.getD "" = c := by rw [hc]; rfl
  rw [step_some st r t ht, startApply_some st r t rem hs,
    endApply_none _ t he, expectApply_none _ t hexp]
  unfold startBranch
  have g : (st.in_suite && truthyName st.current_suite_name &&
      hasKey st.test_suites (st.current_suite_name.getD "")) = true := by
    have hk : hasKey st.test_suites c = true := by
      cases hkk : hasKey st.test_suites c
      · rw [lookup_none_of_hasKey_false hkk] at hl
        exact absurd hl (by simp)
      · rfl
    rw [hin, hc]
    simp [truthyName, hcne, hk]
  rw [if_pos g]
  refine ⟨rfl, rfl, ?_, ?_⟩
  · show (updateSlot (setIncomplete st.test_suites (st.current_suite_name.getD ""))
      (suiteNameOfRem rem) (freshSuite r)).lookup (suiteNameOfRem rem) = _
    exact lookup_updateSlot_self _ _ _
  · intro hne
    show (updateSlot (setIncomplete st.test_suites (st.current_suite_name.getD ""))
      (suiteNameOfRem rem) (freshSuite r)).lookup c = _
    rw [lookup_updateSlot_ne _ _ _ c (fun hcc => hne hcc.symm)]
    unfold setIncomplete
    rw [hc0, lookup_mapAtKey_self, hl]
    rfl

/-- Claim C6 witness: starting suite B while A is open leaves B running
with a fresh entry and finalizes A as Incomplete. -/
theorem c6_witness :
    (step stW6 rStartB).in_suite = true ∧
    (step stW6 rStartB).current_suite_name = some "B" ∧
    (step stW6 rStartB).test_suites.lookup "B" = some (freshSuite rStartB) ∧
    (step stW6 rStartB).test_suites.lookup "A" =
      some ⟨"Incomplete", "N/A", [rStartA], []⟩ :=
  have h := c6_overlapping_start stW6 rStartB "%cStarting test suite:%c B" " B" "A"
    ⟨"running", "N/A", [rStartA], []⟩ rfl (by decide) (by decide) (by decide)
    (by decide) (by decide) (by decide) (by decide)
  ⟨h.1, h.2.1, h.2.2.1, h.2.2.2 (by decide)⟩

/-- Claim C3 counterexample: with suite A open, a suite-end record whose
spec-level end name is AB (different from A) still closes A, because the
source only tests substring containment of the open suite name in the
text; A is finalized Passed and no suite remains open, contradicting the
claim that the record is ignored and A stays open with a warning. -/
theorem c3_counterexample :
    specSuiteEndName "%cFinished test suite:%c AB Passed (2/2)" = some "AB" ∧
    ("AB" : String) ≠ "A" ∧
    (analyzeState [rStartA, rEndAB]).in_suite = false ∧
    analyze_log_file [rStartA, rEndAB] =
      [("A", ⟨"Passed", "AB Passed (2/2)", [rStartA], []⟩)] := by decide

/-- Claim C3 (amended): with suite c open, a suite-end record (not
matching the start pattern) whose text does not contain c as a substring
leaves the analyzer state completely unchanged, provided it does not match
the expect pattern either: nothing is appended, no warning is surfaced;
conversely an end record whose text does contain c closes c regardless of
which suite the end marker names. -/
theorem c3_mismatched_end (st : AnalyzerState) (r : LogRecord) (t c : String)
    (ht : r.text = some t) (hs : startRem? t = none)
    (hin : st.in_suite = true) (hc : st.current_suite_name = some c) (hcne : c ≠ "") :
    (expectInfo? t = none → strContains t c = false → step st r = st) ∧
    (∀ rem, endRem? t = some rem → strContains t c = true →
      (step st r).in_suite = false ∧ (step st r).current_suite_name = none) := by
  have hc0 : st.current_suite_name.getD "" = c := by rw [hc]; rfl
  constructor
  · intro hexp hnc
    rw [step_some st r t ht, startApply_none st r t hs]
    have hend : endApply st t = st := by
      cases he : endRem? t with
      | none => exact endApply_none st t he
      | some rem =>
        apply endApply_skip st t rem he
        rw [hc0, hnc]
        simp
    rw [hend, expectApply_none st t hexp]
  · intro rem he hcon
    rw [step_some st r t ht, startApply_none st r t hs]
    have g : (st.in_suite && truthyName st.current_suite_name &&
        strContains t (st.current_suite_name.getD "")) = true := by
      rw [hin, hc]
      simp [truthyName, hcne, hcon]
    rw [endApply_fire st t rem he g, expectApply_endBranch st rem t]
    exact ⟨rfl, rfl⟩

/-- Claim C3 witness: a plain record leaves the open suite untouched and
an end record containing the open suite name closes it. -/
theorem c3_witness :
    step stW6 rPlain = stW6 ∧ (step stW6 rEndAB).in_suite = false :=
  have h1 := c3_mismatched_end stW6 rPlain "hello world" "A" rfl (by decide)
    (by decide) (by decide) (by decide)
  have h2 := c3_mismatched_end stW6 rEndAB "%cFinished test suite:%c AB Passed (2/2)" "A"
    rfl (by decide) (by decide) (by decide) (by decide)
  ⟨h1.1 (by decide) (by decide), (h2.2 " AB Passed (2/2)" (by decide) (by decide)).1⟩

/-- Claim C4 counterexample: the text Starting test suite: Foo contains
the bare marker phrase of the claim followed by a name, yet the source
regex requires the console-styling directives around the phrase, so the
record is not classified as a suite start and no suite is created.
Moreover containment of even the wrapped literal does not suffice (the
regex fails when two newline-separated non-whitespace segments follow),
and the suite name is not the trimmed remainder after the marker: for
remainder " A\nB" the created suite is keyed "B", not "A\nB". -/
theorem c4_counterexample :
    strContains "Starting test suite: Foo" "Starting test suite:" = true ∧
    startRem? "Starting test suite: Foo" = none ∧
    analyze_log_file [⟨some "Starting test suite: Foo", "log"⟩] = [] ∧
    strContains "x%cStarting test suite:%cA\nB\nC" "%cStarting test suite:%c" = true ∧
    startRem? "x%cStarting test suite:%cA\nB\nC" = none ∧
    analyze_log_file [⟨some "x%cStarting test suite:%cA\nB\nC", "log"⟩] = [] ∧
    analyze_log_file [⟨some "%cStarting test suite:%c A\nB", "log"⟩] =
      [("B", ⟨"Incomplete", "N/A", [⟨some "%cStarting test suite:%c A\nB", "log"⟩], []⟩)] := by
  decide

/-- Claim C4 (amended): a lifecycle classification requires the marker
literal wrapped in the console-styling directives, and the wrapped
literal alone is necessary but not sufficient: the regex matches at the
first occurrence of the literal whose remainder passes the newline test
(everything from the first through the last newline of the
trailing-newline-stripped remainder is whitespace; vacuous for
newline-free texts, where containment of the wrapped literal is exact).
The suite name is the stripped text after the last such newline, with
fallback Unknown Test Suite when that is empty; the expect classification
additionally requires the trailing-newline-stripped remainder to end in
Passed, Failed or Error with a newline-free stripped test name before
it. -/
theorem c4_marker_classification (t : String) :
    ((startRem? t).isSome = true → strContains t "%cStarting test suite:%c" = true) ∧
    ((endRem? t).isSome = true → strContains t "%cFinished test suite:%c" = true) ∧
    ((expectInfo? t).isSome = true → strContains t "%cExpect Test:%c" = true) ∧
    (t.data.any (fun ch => ch == '\n') = false →
      (startRem? t).isSome = strContains t "%cStarting test suite:%c" ∧
      (endRem? t).isSome = strContains t "%cFinished test suite:%c") ∧
    (∀ m : String, ((step initState ⟨some t, m⟩).test_suites.map Prod.fst) =
      (match startRem? t with
       | some rem => [suiteNameOfRem rem]
       | none => [])) := by
  refine ⟨?_, ?_, ?_, ?_, ?_⟩
  · intro h
    unfold startRem? at h
    rw [Option.isSome_map'] at h
    unfold strContains
    exact reSearch_isSome_sub _ _ _ h
  · intro h
    unfold endRem? at h
    rw [Option.isSome_map'] at h
    unfold strContains
    exact reSearch_isSome_sub _ _ _ h
  · intro h
    unfold expectInfo? at h
    unfold strContains
    cases hr : reSearchAux ("%cExpect Test:%c").data
        (fun s => (expectTailInfo s).isSome) t.data with
    | none => rw [hr] at h; exact absurd h (by simp)
    | some s => exact reSearch_isSome_sub _ _ _ (by rw [hr]; rfl)
  · intro hnl
    constructor
    · unfold startRem? strContains
      rw [Option.isSome_map']
      exact reSearch_eq_afterFirst_of_no_newline _ _ hnl
    · unfold endRem? strContains
      rw [Option.isSome_map']
      exact reSearch_eq_afterFirst_of_no_newline _ _ hnl
  · intro m
    cases hs : startRem? t with
    | none =>
      rw [step_some _ _ t rfl, startApply_none _ _ t hs]
      have hend : endApply initState t = initState := by
        cases he : endRem? t with
        | none => exact endApply_none _ t he
        | some rem =>
          apply endApply_skip _ t rem he
          simp [initState]
      rw [hend]
      have hexp : expectApply initState t = initState := by
        unfold expectApply
        cases hi : expectInfo? t with
        | none => rfl
        | some i =>
          show (if _ then expectBranch initState i else initState) = initState
          rw [if_neg (by simp [initState])]
      rw [hexp]
      rfl
    | some rem =>
      rw [step_some _ _ t rfl, startApply_some _ _ t rem hs,
        map_fst_expectApply, map_fst_endApply]
      show (updateSlot (if initState.in_suite && truthyName initState.current_suite_name &&
          hasKey initState.test_suites (initState.current_suite_name.getD "") then
          setIncomplete initState.test_suites (initState.current_suite_name.getD "")
        else initState.test_suites)
        (suiteNameOfRem rem) (freshSuite ⟨some t, m⟩)).map Prod.fst = [suiteNameOfRem rem]
      rw [if_neg (by simp [initState])]
      rfl

/-- Claim C4 witness: on a newline-free text the wrapped-literal test is
exact, and a bare start phrase creates no suite. -/
theorem c4_witness :
    ((startRem? "%cStarting test suite:%c A").isSome =
      strContains "%cStarting test suite:%c A" "%cStarting test suite:%c") ∧
    ((step initState ⟨some "Starting test suite: Foo", "x"⟩).test_suites.map Prod.fst = []) := by
  constructor
  · exact ((c4_marker_classification "%cStarting test suite:%c A").2.2.2.1 (by decide)).1
  · have h := (c4_marker_classification "Starting test suite: Foo").2.2.2.2 "x"
    rw [show startRem? "Starting test suite: Foo" = none from by decide] at h
    exact h

/-- Claim C8 counterexample: an end record arriving while no suite is open
is discarded with no surfaced warning at all: the full analyzer state,
warnings included, is the initial one, contradicting the claim that a
warning is surfaced for the end-without-start case. -/
theorem c8_counterexample : analyzeState [rEndX] = initState := by decide

/-- Claim C8 (amended): while no suite is open, any record that is not a
suite start (end records, expect records, plain records, records without
text) leaves the analyzer state entirely unchanged: nothing is recorded
anywhere, no suite entry is created, and no warning is surfaced. -/
theorem c8_idle_discard (st : AnalyzerState) (r : LogRecord)
    (hidle : st.in_suite = false)
    (hns : ∀ t, r.text = some t → startRem? t = none) :
    step st r = st := by
  unfold step
  cases ht : r.text with
  | none => rfl
  | some t =>
    show expectApply (endApply (startApply st r t) t) t = st
    rw [startApply_none st r t (hns t ht)]
    have hend : endApply st t = st := by
      cases he : endRem? t with
      | none => exact endApply_none st t he
      | some rem =>
        apply endApply_skip st t rem he
        rw [hidle]
        rfl
    rw [hend]
    cases hi : expectInfo? t with
    | none => exact expectApply_none st t hi
    | some i =>
      unfold expectApply
      rw [hi]
      show (if _ then expectBranch st i else st) = st
      rw [if_neg (by rw [hidle]; simp)]

/-- Claim C8 witness: an end-without-start record is a complete no-op. -/
theorem c8_witness : step initState rEndX = initState :=
  c8_idle_discard initState rEndX rfl (fun t ht => by cases ht; decide)

/-- Claim C10 counterexample: a single record matching both the start and
the end pattern, with the end marker first, creates the suite
Unknown Test Suite (the whitespace-only start remainder) but does not
finalize it, because the fallback name is not a substring of the text:
the suite remains open after the record, and an input consisting of that
record alone yields status Incomplete, not a Passed or Failed status
derived from the text. -/
theorem c10_counterexample :
    (startRem? "%cFinished test suite:%c x %cStarting test suite:%c").isSome = true ∧
    (endRem? "%cFinished test suite:%c x %cStarting test suite:%c").isSome = true ∧
    (step initState rDual).in_suite = true ∧
    analyze_log_file [rDual] =
      [("Unknown Test Suite", ⟨"Incomplete", "N/A", [rDual], []⟩)] := by decide

/-- Claim C10 (amended): for a record whose text matches both the start
and the end pattern AND contains the derived start name as a substring
(automatic whenever the stripped captured name is non-empty, since the
capture is a contiguous segment of the text), processing the one record
creates the suite and immediately
finalizes it with a Passed or Failed status computed from the same text,
leaving no suite open; when the derived name does not occur in the text
the new suite instead stays open. -/
theorem c10_dual_marker_record (st : AnalyzerState) (r : LogRecord) (t rems reme : String)
    (ht : r.text = some t) (hs : startRem? t = some rems) (he : endRem? t = some reme)
    (hname : strContains t (suiteNameOfRem rems) = true) :
    (step st r).in_suite = false ∧
    (step st r).current_suite_name = none ∧
    (step st r).test_suites.lookup (suiteNameOfRem rems) = some
      { status := endStatus [] (endSummaryOfRem reme),
        result_summary := endSummaryOfRem reme,
        logs := [r], individual_test_statuses := [] } := by
  rw [step_some st r t ht, startApply_some st r t rems hs]
  have g : ((startBranch st r rems).in_suite &&
      truthyName (startBranch st r rems).current_suite_name &&
      strContains t ((startBranch st r rems).current_suite_name.getD "")) = true := by
    show (true && truthyName (some (suiteNameOfRem rems)) &&
      strContains t ((some (suiteNameOfRem rems)).getD "")) = true
    simp [truthyName, suiteNameOfRem_ne rems, hname]
  rw [endApply_fire (startBranch st r rems) t reme he g,
    expectApply_endBranch (startBranch st r rems) reme t]
  refine ⟨rfl, rfl, ?_⟩
  show (mapAtKey (startBranch st r rems).test_suites
    ((startBranch st r rems).current_suite_name.getD "") (endUpd reme)).lookup
      (suiteNameOfRem rems) = _
  have hg : (startBranch st r rems).current_suite_name.getD "" = suiteNameOfRem rems := rfl
  rw [hg, lookup_mapAtKey_self]
  have hl : (startBranch st r rems).test_suites.lookup (suiteNameOfRem rems) =
      some (freshSuite r) := by
    show (updateSlot _ (suiteNameOfRem rems) (freshSuite r)).lookup (suiteNameOfRem rems) = _
    exact lookup_updateSlot_self _ _ _
  rw [hl]
  rfl

/-- Claim C10 witness: a record carrying a start marker and then an end
marker is created and immediately finalized Passed, leaving no open
suite. -/
theorem c10_witness :
    (step initState rDualW).in_suite = false ∧
    (step initState rDualW).current_suite_name = none ∧
    (step initState rDualW).test_suites.lookup
        "A %cFinished test suite:%c A Passed (1/1)" =
      some ⟨"Passed", "A Passed (1/1)", [rDualW], []⟩ :=
  have h := c10_dual_marker_record initState rDualW tDualW
    " A %cFinished test suite:%c A Passed (1/1)" " A Passed (1/1)"
    rfl (by decide) (by decide) (by decide)
  ⟨h.1, h.2.1, h.2.2⟩

/-- Claim C1 (code bug evaluation): the suite log buffer retains only the
start record; the plain record and the end record observed while suite A
was open are absent from the returned logs, although the source comments
state that every record is appended while the suite is open. -/
theorem c1_logs_keep_only_start_record :
    analyze_log_file [rStartA, rPlain, rEndA] =
      [("A", ⟨"Passed", "A Passed (1/1)", [rStartA], []⟩)] ∧
    ([rStartA] : List LogRecord) ≠ [rStartA, rPlain, rEndA] := by decide

/-- Claim C5 (code bug evaluation): an input ending while suite A is open
yields A with status Incomplete, surfaces the unterminated-suite warning
and exits 1, but the returned logs hold only the start record instead of
all records observed while the suite was open. -/
theorem c5_unterminated_suite_eval :
    analyze_log_file [rStartA, rPlain] =
      [("A", ⟨"Incomplete", "N/A", [rStartA], []⟩)] ∧
    main_exit_code [rStartA, rPlain] = 1 ∧
    (analyzeState [rStartA, rPlain]).warnings = [unfinishedWarning "A"] ∧
    ([rStartA] : List LogRecord) ≠ [rStartA, rPlain] := by decide
